import Mathlib

/-!
Verification development for the qube-manager quorum coordination engine.

The daemon ingests broadcast signal events, folds them into a vote ledger
with per-signer supersession, and periodically selects a candidate action
meeting quorum.  The definitions below are a shallow embedding of the Go
source: the semantic-version comparison and lenient parser mirror the
Masterminds `semver/v3` functions used by the code, `processEvent` mirrors
the per-event body of the daemon's ingestion loop, and `selectAction` /
`checkAndExecuteQuorum` mirror the periodic quorum evaluator.
-/

namespace QubeManager

/-! ## Semantic versions (model of Masterminds semver/v3 as used by the code) -/

/-- A parsed semantic version.  Mirrors `semver.Version`: numeric
major/minor/patch segments, the raw prerelease and metadata strings, and
the original input string (returned by `Original()` and used in action
keys). -/
structure SemVer where
  major : Nat
  minor : Nat
  patch : Nat
  pre : String
  metadata : String
  original : String
deriving DecidableEq, Repr

/-- Model of `strconv.ParseUint(s, 10, 64)`: succeeds exactly on nonempty
all-digit strings whose value fits in 64 bits. -/
def parseU64 (s : String) : Option Nat :=
  if s = "" then none
  else if s.data.all Char.isDigit then
    let n := s.data.foldl (fun acc c => acc * 10 + (c.toNat - 48)) 0
    if n < 2 ^ 64 then some n else none
  else none

/-- Go byte-wise string `>` restricted to the character level (prerelease
identifiers are ASCII, where byte order and code-point order agree). -/
def charListGt : List Char → List Char → Bool
  | [], [] => false
  | _ :: _, [] => true
  | [], _ :: _ => false
  | a :: xs, b :: ys =>
    if b.toNat < a.toNat then true
    else if a.toNat < b.toNat then false
    else charListGt xs ys

/-- Model of Masterminds `comparePrePart`: equal parts compare 0; an empty
part loses to a nonempty one; numeric parts (per `ParseUint`) sort below
alphanumeric ones and among themselves numerically; otherwise Go string
comparison decides.  (The `return 1`/`return -1` fallbacks in the empty
branches are dead code under `s ≠ o` and are elided.) -/
def comparePrePart (s o : String) : Int :=
  if s = o then 0
  else if s = "" then -1
  else if o = "" then 1
  else
    match parseU64 s, parseU64 o with
    | none, none => if charListGt s.data o.data then 1 else -1
    | some _, none => -1
    | none, some _ => 1
    | some si, some oi => if oi < si then 1 else -1

/-- The loop of Masterminds `comparePrerelease`: compare dot-separated
parts pairwise, padding the shorter list with empty strings; the first
nonzero part comparison decides. -/
def cmpParts : List String → List String → Int
  | [], [] => 0
  | s :: ss, [] =>
    if comparePrePart s "" = 0 then cmpParts ss [] else comparePrePart s ""
  | [], o :: os =>
    if comparePrePart "" o = 0 then cmpParts [] os else comparePrePart "" o
  | s :: ss, o :: os =>
    if comparePrePart s o = 0 then cmpParts ss os else comparePrePart s o

/-- Model of Masterminds `comparePrerelease`. -/
def comparePrerelease (v o : String) : Int :=
  cmpParts (v.splitOn ".") (o.splitOn ".")

/-- Model of Masterminds `compareSegment`. -/
def compareSegment (a b : Nat) : Int :=
  if a < b then -1 else if b < a then 1 else 0

/-- Model of Masterminds `Version.Compare`: major, minor, patch segments
in order, then prerelease (a release outranks any prerelease); build
metadata is ignored. -/
def semverCompare (v o : SemVer) : Int :=
  if compareSegment v.major o.major ≠ 0 then compareSegment v.major o.major
  else if compareSegment v.minor o.minor ≠ 0 then compareSegment v.minor o.minor
  else if compareSegment v.patch o.patch ≠ 0 then compareSegment v.patch o.patch
  else if v.pre = "" ∧ o.pre = "" then 0
  else if v.pre = "" then 1
  else if o.pre = "" then -1
  else comparePrerelease v.pre o.pre

/-- Model of `Version.GreaterThan`, used by the quorum evaluator. -/
def semverGreaterThan (v o : SemVer) : Bool :=
  0 < semverCompare v o

/-! ### The lenient parser `semver.NewVersion`

Masterminds `NewVersion` matches
`^v?([0-9]+)(\.[0-9]+)?(\.[0-9]+)?(-PRE)?(\+META)?$` where `PRE` and
`META` are nonempty dot-separated groups of `[0-9A-Za-z-]` characters,
then parses each numeric segment with `ParseUint(_, 10, 64)`. -/

/-- Take a maximal nonempty digit run and its 64-bit value. -/
def takeNum (cs : List Char) : Option (Nat × List Char) :=
  let p := cs.span Char.isDigit
  if p.1 = [] then none
  else
    let n := p.1.foldl (fun acc c => acc * 10 + (c.toNat - 48)) 0
    if n < 2 ^ 64 then some (n, p.2) else none

/-- An optional `.N` segment; absent segments default to 0, a dot not
followed by digits fails the whole parse. -/
def takeDotNum (cs : List Char) : Option (Nat × List Char) :=
  match cs with
  | '.' :: rest => takeNum rest
  | _ => some (0, cs)

/-- Characters allowed inside prerelease/metadata groups, plus the dot
separator. -/
def isIdentOrDot (c : Char) : Bool :=
  c.isDigit || c.isAlpha || c = '-' || c = '.'

/-- Validate a prerelease/metadata body: every dot-separated part is
nonempty. -/
def preBodyOk (s : String) : Bool :=
  (s.splitOn ".").all (fun part => part ≠ "")

/-- An optional `-PRE` suffix. -/
def takePre (cs : List Char) : Option (String × List Char) :=
  match cs with
  | '-' :: rest =>
    let p := rest.span isIdentOrDot
    let s := String.mk p.1
    if preBodyOk s then some (s, p.2) else none
  | _ => some ("", cs)

/-- An optional `+META` suffix. -/
def takeMeta (cs : List Char) : Option (String × List Char) :=
  match cs with
  | '+' :: rest =>
    let p := rest.span isIdentOrDot
    let s := String.mk p.1
    if preBodyOk s then some (s, p.2) else none
  | _ => some ("", cs)

/-- Model of `semver.NewVersion` (the lenient parser used on the
`version` tag). -/
def parseSemVer (s : String) : Option SemVer :=
  let cs0 := s.data
  let cs1 := match cs0 with
    | 'v' :: rest => rest
    | _ => cs0
  match takeNum cs1 with
  | none => none
  | some (maj, r1) =>
    match takeDotNum r1 with
    | none => none
    | some (mi, r2) =>
      match takeDotNum r2 with
      | none => none
      | some (pa, r3) =>
        match takePre r3 with
        | none => none
        | some (pr, r4) =>
          match takeMeta r4 with
          | none => none
          | some (me, r5) =>
            if r5 = [] then
              some { major := maj, minor := mi, patch := pa,
                     pre := pr, metadata := me, original := s }
            else none

/-! ## Finite maps as association lists

Go's `map[string]V` is modelled by an association list: `alookup` reads
the first binding of a key, `aset` replaces it in place (or appends a new
binding).  Iteration order of Go maps is deliberately NOT modelled as a
function of the map: the evaluator below takes its iteration order as an
explicit list. -/

/-- First binding of a key, like a Go map read. -/
def alookup {α : Type} : List (String × α) → String → Option α
  | [], _ => none
  | (k0, v0) :: rest, k => if k0 = k then some v0 else alookup rest k

/-- Replace the first binding of a key in place, or append a new one,
like a Go map write. -/
def aset {α : Type} : List (String × α) → String → α → List (String × α)
  | [], k, v => [(k, v)]
  | (k0, v0) :: rest, k, v =>
    if k0 = k then (k, v) :: rest else (k0, v0) :: aset rest k v

/-! ## Genesis URI validity

Model of `url.ParseRequestURI` at the granularity the daemon uses: the
raw string must be free of control bytes and nonempty, and must be `"*"`,
carry a scheme prefix (`[A-Za-z][A-Za-z0-9+.-]*:`), or start with `/`.
(Authority-part edge cases of `net/url` beyond this are not modelled;
no theorem below depends on them.) -/

/-- Scheme continuation: letters, digits, `+`, `-`, `.` up to a `:`. -/
def schemeRest : List Char → Bool
  | [] => false
  | c :: rest =>
    if c = ':' then true
    else (c.isAlpha || c.isDigit || c = '+' || c = '-' || c = '.') && schemeRest rest

/-- A URL has a scheme when it starts with a letter followed by scheme
characters and a colon. -/
def hasScheme : List Char → Bool
  | [] => false
  | c :: rest => c.isAlpha && schemeRest rest

/-- Syntactic acceptance of `url.ParseRequestURI`. -/
def validRequestURI (s : String) : Bool :=
  s ≠ "" && s.data.all (fun c => 31 < c.toNat && c.toNat ≠ 127) &&
    (s = "*" || hasScheme s.data || s.startsWith "/")

/-! ## Events, configuration, candidate actions, daemon state -/

/-- The part of a nostr event the ingestion loop reads: the author's
public key, the event timestamp (`CreatedAt`, an `int64`), and the tag
list (each tag a list of strings). -/
structure NEvent where
  pubKey : String
  createdAt : Int
  tags : List (List String)
deriving DecidableEq, Repr

/-- The configuration fields the quorum engine reads: the network scope
and the quorum threshold (a Go `int`). -/
structure Config where
  network : String
  quorum : Int
deriving DecidableEq, Repr

/-- `CandidateAction` from the source: details of a potential action. -/
structure CandidateAction where
  version : SemVer
  type : String
  key : String
  genesis : String
  hash : String
  network : String
  originalPubkey : String
deriving DecidableEq, Repr

/-- `getTagValue`: the second entry of the first tag of length ≥ 2 whose
first entry is the given name, else the empty string. -/
def getTagValue (tags : List (List String)) (tagName : String) : String :=
  match tags with
  | [] => ""
  | tag :: rest =>
    match tag with
    | a :: b :: _ => if a = tagName then b else getTagValue rest tagName
    | _ => getTagValue rest tagName

/-- The four maps the ingestion loop and the evaluator share: the action
registry, the vote ledger (action key → set of voting pubkeys), and the
per-signer latest-signal index (`latestSignal` and `signalActionMap`). -/
structure DaemonState where
  actions : List (String × CandidateAction)
  votes : List (String × List String)
  latestSignal : List (String × Int)
  signalActionMap : List (String × String)
deriving DecidableEq, Repr

/-- The daemon starts with all four maps empty. -/
def initState : DaemonState :=
  { actions := [], votes := [], latestSignal := [], signalActionMap := [] }

/-- The set of pubkeys currently voting for a key (empty when the key has
no ledger entry). -/
def voteSet (st : DaemonState) (key : String) : List String :=
  match alookup st.votes key with
  | some l => l
  | none => []

/-- Add a pubkey to a vote set (`votes[key][pk] = true` on a `map[string]bool`). -/
def addPk (l : List String) (pk : String) : List String :=
  if pk ∈ l then l else pk :: l

/-! ## The ingestion loop body

`processEvent` is the per-event body of the daemon's event loop
(src/unnamed/part_002, lines 336-477), split into its three stages:

* `classifySignal` — the event-only validation chain: the `d` tag must be
  `hyperqube`; `version`, `hash`, `network`, `action` tags must be
  nonempty; the network must match the configured scope; the version must
  parse; then the `switch` on the action type, where `reboot` further
  requires a present, syntactically valid `genesis_url` and an unknown
  action type falls through to the default branch.  The outcome is
  "rejected before the supersession block" (`rejectedEarly`), "rejected
  inside the switch" (`rejectedLate`), or accepted with the
  `CandidateAction` the accepting branch builds.
* `staleGateAndClear` — the single-active-message block: a signal not
  newer than the signer's recorded latest is dropped (`none`); a strictly
  newer one first deletes the signer's vote for their previous action key.
* `recordAccepted` — the accepting tail of the switch: insert the
  candidate if its key is new (first writer wins), add the signer to the
  key's vote set, and update both latest-signal maps. -/

inductive SignalOutcome where
  | rejectedEarly : SignalOutcome
  | rejectedLate : SignalOutcome
  | accepted : CandidateAction → SignalOutcome
deriving DecidableEq, Repr

/-- Event-only validation and candidate construction (see above). -/
def classifySignal (cfg : Config) (ev : NEvent) : SignalOutcome :=
  if getTagValue ev.tags "d" ≠ "hyperqube" then .rejectedEarly
  else
    let version := getTagValue ev.tags "version"
    let hash := getTagValue ev.tags "hash"
    let network := getTagValue ev.tags "network"
    let action := getTagValue ev.tags "action"
    if version = "" ∨ hash = "" ∨ network = "" ∨ action = "" then .rejectedEarly
    else if network ≠ cfg.network then .rejectedEarly
    else
      match parseSemVer version with
      | none => .rejectedEarly
      | some v =>
        if action = "upgrade" then
          let key := "upgrade:" ++ v.original
          .accepted { version := v, type := "upgrade", key := key, genesis := "",
                      hash := hash, network := network, originalPubkey := ev.pubKey }
        else if action = "reboot" then
          let genesisURL := getTagValue ev.tags "genesis_url"
          if genesisURL = "" then .rejectedLate
          else if ¬ validRequestURI genesisURL then .rejectedLate
          else
            let key := "reboot:" ++ v.original ++ ":" ++ genesisURL
            .accepted { version := v, type := "reboot", key := key, genesis := genesisURL,
                        hash := hash, network := network, originalPubkey := ev.pubKey }
        else .rejectedLate

/-- Delete the signer's vote for their previously recorded action key
(the inner block of the supersession branch). -/
def clearOldVote (st : DaemonState) (pk : String) : DaemonState :=
  match alookup st.signalActionMap pk with
  | some oldActionKey =>
    match alookup st.votes oldActionKey with
    | some oldVotes =>
      { st with votes := aset st.votes oldActionKey (oldVotes.filter (fun q => q ≠ pk)) }
    | none => st
  | none => st

/-- The single-active-message block: `none` means the signal is stale and
the loop `continue`s without mutation; otherwise the state in which the
switch proceeds (with the signer's old vote cleared when a previous
signal exists). -/
def staleGateAndClear (st : DaemonState) (pk : String) (t : Int) : Option DaemonState :=
  match alookup st.latestSignal pk with
  | some prevTimestamp =>
    if prevTimestamp < t then some (clearOldVote st pk) else none
  | none => some st

/-- The accepting tail of the switch: first-writer-wins registry insert,
vote-set add, latest-signal index update. -/
def recordAccepted (st : DaemonState) (pk : String) (t : Int) (key : String)
    (cand : CandidateAction) : DaemonState :=
  let actions := match alookup st.actions key with
    | some _ => st.actions
    | none => aset st.actions key cand
  let vset := match alookup st.votes key with
    | some l => l
    | none => []
  { actions := actions,
    votes := aset st.votes key (addPk vset pk),
    latestSignal := aset st.latestSignal pk t,
    signalActionMap := aset st.signalActionMap pk key }

/-- The per-event body of the daemon's ingestion loop. -/
def processEvent (cfg : Config) (st : DaemonState) (ev : NEvent) : DaemonState :=
  match classifySignal cfg ev with
  | .rejectedEarly => st
  | .rejectedLate =>
    match staleGateAndClear st ev.pubKey ev.createdAt with
    | none => st
    | some st1 => st1
  | .accepted cand =>
    match staleGateAndClear st ev.pubKey ev.createdAt with
    | none => st
    | some st1 => recordAccepted st1 ev.pubKey ev.createdAt cand.key cand

/-- Fold a stream of events through the ingestion loop from the initial
empty state. -/
def foldState (cfg : Config) (evs : List NEvent) : DaemonState :=
  evs.foldl (processEvent cfg) initState

/-! ## History and the quorum evaluator -/

/-- Modelled from the spec: the History store's type lives outside src/
(only `loadHistory`, `history.Has`, `history.Add`, `history.Save` appear
there); the spec describes it as an append-only set of executed action
keys with membership test `Has(key)` and insertion `Add(key)`. -/
def historyHas (h : List String) (key : String) : Bool :=
  h.contains key

/-- Modelled from the spec: `Add(key)` appends an executed action key. -/
def historyAdd (h : List String) (key : String) : List String :=
  h ++ [key]

/-- Vote count of a key as the evaluator computes it. -/
def voteCount (votes : List (String × List String)) (key : String) : Nat :=
  match alookup votes key with
  | some vset => vset.length
  | none => 0

/-- One iteration of the evaluator's selection loop: skip keys already in
History, skip candidates below quorum, otherwise keep the greater
version (`latest == nil || a.Version.GreaterThan(latest.Version)`). -/
def selStep (quorum : Int) (history : List String) (votes : List (String × List String))
    (latest : Option CandidateAction) (a : CandidateAction) : Option CandidateAction :=
  if historyHas history a.key then latest
  else if (voteCount votes a.key : Int) < quorum then latest
  else
    match latest with
    | none => some a
    | some l => if semverGreaterThan a.version l.version then some a else latest

/-- The selection loop of `checkAndExecuteQuorum`, iterating the registry
candidates in the given (Go-map-determined, hence explicit) order. -/
def selectAction (quorum : Int) (history : List String) (votes : List (String × List String))
    (order : List CandidateAction) : Option CandidateAction :=
  order.foldl (selStep quorum history votes) none

/-- Whether a candidate survives the two skip tests of the loop. -/
def eligibleB (quorum : Int) (history : List String) (votes : List (String × List String))
    (a : CandidateAction) : Bool :=
  !(historyHas history a.key) && !((voteCount votes a.key : Int) < quorum)

/-- State effect of one `checkAndExecuteQuorum` tick: select a candidate;
in dry-run mode or when nothing is selected, change nothing; otherwise
record the selected key in History (the publishing I/O and its failure
returns, which skip the History write, are elided: this is the success
path).  The ledger maps are never written by the evaluator. -/
def checkAndExecuteQuorum (quorum : Int) (dryRun : Bool) (st : DaemonState)
    (history : List String) (order : List CandidateAction) :
    DaemonState × List String :=
  match selectAction quorum history st.votes order with
  | none => (st, history)
  | some latest =>
    if dryRun then (st, history) else (st, historyAdd history latest.key)

/-! ## Association-list lemmas -/

theorem alookup_aset_self {α : Type} (m : List (String × α)) (k : String) (v : α) :
    alookup (aset m k v) k = some v := by
  induction m with
  | nil => simp [aset, alookup]
  | cons hd tl ih =>
    obtain ⟨k0, v0⟩ := hd
    by_cases h : k0 = k
    · simp [aset, h, alookup]
    · simp [aset, h, alookup, ih]

theorem alookup_aset_ne {α : Type} (m : List (String × α)) (k k' : String) (v : α)
    (h : k' ≠ k) : alookup (aset m k v) k' = alookup m k' := by
  induction m with
  | nil =>
    simp only [aset, alookup]
    rw [if_neg (Ne.symm h)]
  | cons hd tl ih =>
    obtain ⟨k0, v0⟩ := hd
    by_cases hk : k0 = k
    · subst hk
      simp only [aset, if_pos rfl, alookup]
      rw [if_neg (Ne.symm h), if_neg (Ne.symm h)]
    · simp only [aset, if_neg hk, alookup]
      by_cases hk' : k0 = k'
      · simp [hk']
      · simp [hk', ih]

theorem alookup_mem {α : Type} {m : List (String × α)} {k : String} {v : α}
    (h : alookup m k = some v) : (k, v) ∈ m := by
  induction m with
  | nil => simp [alookup] at h
  | cons hd tl ih =>
    obtain ⟨k0, v0⟩ := hd
    by_cases hk : k0 = k
    · subst hk
      simp [alookup] at h
      subst h
      exact List.mem_cons_self _ _
    · simp only [alookup, if_neg hk] at h
      exact List.mem_cons_of_mem _ (ih h)

theorem aset_map_fst_of_mem {α : Type} (m : List (String × α)) (k : String) (v : α)
    (h : (alookup m k).isSome) : (aset m k v).map Prod.fst = m.map Prod.fst := by
  induction m with
  | nil => simp [alookup] at h
  | cons hd tl ih =>
    obtain ⟨k0, v0⟩ := hd
    by_cases hk : k0 = k
    · subst hk
      simp [aset]
    · simp only [alookup, if_neg hk] at h
      simp [aset, hk, ih h]

theorem aset_map_fst_of_not_mem {α : Type} (m : List (String × α)) (k : String) (v : α)
    (h : alookup m k = none) : (aset m k v).map Prod.fst = m.map Prod.fst ++ [k] := by
  induction m with
  | nil => simp [aset]
  | cons hd tl ih =>
    obtain ⟨k0, v0⟩ := hd
    by_cases hk : k0 = k
    · subst hk
      simp [alookup] at h
    · simp only [alookup, if_neg hk] at h
      simp [aset, hk, ih h]

theorem alookup_none_of_not_mem_keys {α : Type} {m : List (String × α)} {k : String}
    (h : k ∉ m.map Prod.fst) : alookup m k = none := by
  induction m with
  | nil => simp [alookup]
  | cons hd tl ih =>
    obtain ⟨k0, v0⟩ := hd
    simp only [List.map_cons, List.mem_cons] at h
    push_neg at h
    simp [alookup, Ne.symm h.1, ih h.2]

theorem alookup_isSome_of_mem_keys {α : Type} {m : List (String × α)} {k : String}
    (h : k ∈ m.map Prod.fst) : (alookup m k).isSome := by
  induction m with
  | nil => simp at h
  | cons hd tl ih =>
    obtain ⟨k0, v0⟩ := hd
    by_cases hk : k0 = k
    · simp [alookup, hk]
    · simp only [List.map_cons, List.mem_cons] at h
      rcases h with h | h

      · exact absurd h.symm hk
      · simp [alookup, hk, ih h]

theorem aset_keys_nodup {α : Type} (m : List (String × α)) (k : String) (v : α)
    (h : (m.map Prod.fst).Nodup) : ((aset m k v).map Prod.fst).Nodup := by
  cases hl : alookup m k with
  | none =>
    rw [aset_map_fst_of_not_mem m k v hl]
    refine List.Nodup.append h (List.nodup_singleton k) ?_
    intro a ha hb
    simp only [List.mem_singleton] at hb
    subst hb
    have := alookup_isSome_of_mem_keys ha
    rw [hl] at this
    exact absurd this (by simp)
  | some v0 =>
    rw [aset_map_fst_of_mem m k v (by simp [hl])]
    exact h

/-! ## Order lemmas for the semver comparison -/

theorem charListGt_asymm : ∀ xs ys : List Char,
    charListGt xs ys = true → charListGt ys xs = false
  | [], [], h => by simp [charListGt] at h
  | _ :: _, [], _ => by simp [charListGt]
  | [], _ :: _, h => by simp [charListGt] at h
  | a :: xs, b :: ys, h => by
    simp only [charListGt] at h ⊢
    by_cases h1 : b.toNat < a.toNat
    · rw [if_neg (Nat.not_lt.mpr (Nat.le_of_lt h1)), if_pos h1]
    · by_cases h2 : a.toNat < b.toNat
      · rw [if_neg h1, if_pos h2] at h
        exact absurd h (by simp)
      · rw [if_neg h1, if_neg h2] at h
        rw [if_neg h2, if_neg h1]
        exact charListGt_asymm xs ys h

theorem comparePrePart_self (s : String) : comparePrePart s s = 0 := by
  simp [comparePrePart]

theorem comparePrePart_eq_zero {s o : String} (h : comparePrePart s o = 0) : s = o := by
  by_contra hne
  unfold comparePrePart at h
  rw [if_neg hne] at h
  by_cases hs : s = ""
  · simp [hs] at h
  · rw [if_neg hs] at h
    by_cases ho : o = ""
    · simp [ho] at h
    · rw [if_neg ho] at h
      cases hps : parseU64 s <;> cases hpo : parseU64 o <;>
        simp [hps, hpo] at h <;> split_ifs at h <;> simp_all

theorem comparePrePart_cases (s o : String) :
    comparePrePart s o = -1 ∨ comparePrePart s o = 0 ∨ comparePrePart s o = 1 := by
  unfold comparePrePart
  split_ifs <;> try simp
  all_goals cases hps : parseU64 s <;> cases hpo : parseU64 o <;> (try simp) <;>
    (try split_ifs) <;> (try simp) <;> (try omega)

theorem comparePrePart_one {s o : String} (h : comparePrePart s o = 1) :
    comparePrePart o s = -1 := by
  have hne : s ≠ o := by
    intro he
    rw [he, comparePrePart_self] at h
    exact absurd h (by decide)
  unfold comparePrePart at h ⊢
  rw [if_neg hne] at h
  rw [if_neg (Ne.symm hne)]
  by_cases hs : s = ""
  · simp [hs] at h
  · rw [if_neg hs] at h
    by_cases ho : o = ""
    · rw [if_pos ho]
    · rw [if_neg ho] at h
      rw [if_neg ho, if_neg hs]
      cases hps : parseU64 s with
      | none =>
        cases hpo : parseU64 o with
        | none =>
          simp only [hps, hpo] at h ⊢
          by_cases hg : charListGt s.data o.data = true
          · simp [charListGt_asymm _ _ hg]
          · simp [hg] at h
        | some oi => simp [hps, hpo]
      | some si =>
        cases hpo : parseU64 o with
        | none => simp [hps, hpo] at h
        | some oi =>
          simp only [hps, hpo] at h ⊢
          by_cases hlt : oi < si
          · rw [if_neg (Nat.not_lt.mpr (Nat.le_of_lt hlt))]
          · rw [if_neg hlt] at h
            exact absurd h (by decide)

theorem cmpParts_self : ∀ l : List String, cmpParts l l = 0
  | [] => by simp [cmpParts]
  | s :: ss => by
    simp only [cmpParts, comparePrePart_self, if_pos rfl]
    exact cmpParts_self ss

theorem cmpParts_one : ∀ l1 l2 : List String, cmpParts l1 l2 = 1 → cmpParts l2 l1 = -1
  | [], [], h => by simp [cmpParts] at h
  | s :: ss, [], h => by
    simp only [cmpParts] at h ⊢
    rcases comparePrePart_cases s "" with hc | hc | hc
    · rw [if_neg (by rw [hc]; decide)] at h
      rw [hc] at h
      exact absurd h (by decide)
    · have hs : s = "" := comparePrePart_eq_zero hc
      rw [if_pos hc] at h
      rw [hs, comparePrePart_self, if_pos rfl]
      exact cmpParts_one ss [] h
    · rw [comparePrePart_one hc, if_neg (by decide)]
  | [], o :: os, h => by
    simp only [cmpParts] at h ⊢
    rcases comparePrePart_cases "" o with hc | hc | hc
    · rw [if_neg (by rw [hc]; decide)] at h
      rw [hc] at h
      exact absurd h (by decide)
    · have ho : "" = o := comparePrePart_eq_zero hc
      rw [if_pos hc] at h
      rw [← ho, comparePrePart_self, if_pos rfl]
      exact cmpParts_one [] os h
    · rw [comparePrePart_one hc, if_neg (by decide)]
  | s :: ss, o :: os, h => by
    simp only [cmpParts] at h ⊢
    rcases comparePrePart_cases s o with hc | hc | hc
    · rw [if_neg (by rw [hc]; decide)] at h
      rw [hc] at h
      exact absurd h (by decide)
    · have hso : s = o := comparePrePart_eq_zero hc
      rw [if_pos hc] at h
      rw [hso, comparePrePart_self, if_pos rfl]
      exact cmpParts_one ss os h
    · rw [comparePrePart_one hc, if_neg (by decide)]

theorem compareSegment_self (a : Nat) : compareSegment a a = 0 := by
  simp [compareSegment]

theorem compareSegment_eq_zero {a b : Nat} (h : compareSegment a b = 0) : a = b := by
  unfold compareSegment at h
  by_cases h1 : a < b
  · rw [if_pos h1] at h
    exact absurd h (by decide)
  · rw [if_neg h1] at h
    by_cases h2 : b < a
    · rw [if_pos h2] at h
      exact absurd h (by decide)
    · omega

theorem compareSegment_one {a b : Nat} (h : compareSegment a b = 1) :
    compareSegment b a = -1 := by
  unfold compareSegment at h ⊢
  by_cases h1 : a < b
  · rw [if_pos h1] at h
    exact absurd h (by decide)
  · rw [if_neg h1] at h
    by_cases h2 : b < a
    · rw [if_pos h2]
    · rw [if_neg h2] at h
      exact absurd h (by decide)

theorem compareSegment_cases (a b : Nat) :
    compareSegment a b = -1 ∨ compareSegment a b = 0 ∨ compareSegment a b = 1 := by
  unfold compareSegment
  split_ifs <;> simp

theorem cmpPartsNilAux : ∀ l : List String,
    cmpParts l [] = -1 ∨ cmpParts l [] = 0 ∨ cmpParts l [] = 1
  | [] => by simp [cmpParts]
  | s :: ss => by
    simp only [cmpParts]
    rcases comparePrePart_cases s "" with hc | hc | hc <;> rw [hc]
    · simp
    · simpa using cmpPartsNilAux ss
    · simp

theorem cmpParts_cases : ∀ l1 l2 : List String,
    cmpParts l1 l2 = -1 ∨ cmpParts l1 l2 = 0 ∨ cmpParts l1 l2 = 1
  | [], [] => by simp [cmpParts]
  | s :: ss, [] => cmpPartsNilAux (s :: ss)
  | [], o :: os => by
    simp only [cmpParts]
    rcases comparePrePart_cases "" o with hc | hc | hc <;> rw [hc]
    · simp
    · simpa using cmpParts_cases [] os
    · simp
  | s :: ss, o :: os => by
    simp only [cmpParts]
    rcases comparePrePart_cases s o with hc | hc | hc <;> rw [hc]
    · simp
    · simpa using cmpParts_cases ss os
    · simp

theorem comparePrerelease_cases (p q : String) :
    comparePrerelease p q = -1 ∨ comparePrerelease p q = 0 ∨ comparePrerelease p q = 1 := by
  unfold comparePrerelease
  exact cmpParts_cases _ _

theorem semverCompare_self (v : SemVer) : semverCompare v v = 0 := by
  unfold semverCompare
  rw [compareSegment_self, compareSegment_self, compareSegment_self]
  rw [if_neg (by decide), if_neg (by decide), if_neg (by decide)]
  by_cases hp : v.pre = ""
  · rw [if_pos ⟨hp, hp⟩]
  · rw [if_neg (not_and_of_not_left _ hp), if_neg hp, if_neg hp]
    unfold comparePrerelease
    exact cmpParts_self _

theorem semverCompare_cases (v o : SemVer) :
    semverCompare v o = -1 ∨ semverCompare v o = 0 ∨ semverCompare v o = 1 := by
  unfold semverCompare
  rcases compareSegment_cases v.major o.major with h1 | h1 | h1 <;> rw [h1]
  · rw [if_pos (by decide)]
    simp
  · rw [if_neg (by decide)]
    rcases compareSegment_cases v.minor o.minor with h2 | h2 | h2 <;> rw [h2]
    · rw [if_pos (by decide)]
      simp
    · rw [if_neg (by decide)]
      rcases compareSegment_cases v.patch o.patch with h3 | h3 | h3 <;> rw [h3]
      · rw [if_pos (by decide)]
        simp
      · rw [if_neg (by decide)]
        split_ifs
        · simp
        · simp
        · simp
        · exact comparePrerelease_cases v.pre o.pre
      · rw [if_pos (by decide)]
        simp
    · rw [if_pos (by decide)]
      simp
  · rw [if_pos (by decide)]
    simp

theorem semverCompare_one {v o : SemVer} (h : semverCompare v o = 1) :
    semverCompare o v = -1 := by
  unfold semverCompare at h ⊢
  rcases compareSegment_cases v.major o.major with h1 | h1 | h1
  · rw [h1, if_pos (by decide)] at h
    exact absurd h (by decide)
  · have he := compareSegment_eq_zero h1
    rw [h1, if_neg (by decide)] at h
    rw [he, compareSegment_self, if_neg (by decide)]
    rcases compareSegment_cases v.minor o.minor with h2 | h2 | h2
    · rw [h2, if_pos (by decide)] at h
      exact absurd h (by decide)
    · have he2 := compareSegment_eq_zero h2
      rw [h2, if_neg (by decide)] at h
      rw [he2, compareSegment_self, if_neg (by decide)]
      rcases compareSegment_cases v.patch o.patch with h3 | h3 | h3
      · rw [h3, if_pos (by decide)] at h
        exact absurd h (by decide)
      · have he3 := compareSegment_eq_zero h3
        rw [h3, if_neg (by decide)] at h
        rw [he3, compareSegment_self, if_neg (by decide)]
        by_cases hv : v.pre = ""
        · by_cases ho : o.pre = ""
          · rw [if_pos ⟨hv, ho⟩] at h
            exact absurd h (by decide)
          · rw [if_neg (not_and_of_not_left _ ho), if_neg ho, if_pos hv]
        · rw [if_neg (not_and_of_not_left _ hv), if_neg hv] at h
          by_cases ho : o.pre = ""
          · rw [if_pos ho] at h
            exact absurd h (by decide)
          · rw [if_neg ho] at h
            rw [if_neg (not_and_of_not_left _ ho), if_neg ho, if_neg hv]
            unfold comparePrerelease at h ⊢
            exact cmpParts_one _ _ h
      · rw [h3, if_pos (by decide)] at h
        rw [compareSegment_one h3, if_pos (by decide)]
    · rw [h2, if_pos (by decide)] at h
      rw [compareSegment_one h2, if_pos (by decide)]
  · rw [h1, if_pos (by decide)] at h
    rw [compareSegment_one h1, if_pos (by decide)]

/-- `GreaterThan` is asymmetric: exactly what the selection loop needs to
keep a strictly greatest candidate once reached. -/
theorem semverGreaterThan_asymm {a b : SemVer} (h : semverGreaterThan a b = true) :
    semverGreaterThan b a = false := by
  unfold semverGreaterThan at h ⊢
  simp only [decide_eq_true_eq] at h
  rcases semverCompare_cases a b with hc | hc | hc
  · rw [hc] at h
    exact absurd h (by decide)
  · rw [hc] at h
    exact absurd h (by decide)
  · rw [semverCompare_one hc]
    decide

/-- `GreaterThan` is irreflexive. -/
theorem semverGreaterThan_irrefl (a : SemVer) : semverGreaterThan a a = false := by
  unfold semverGreaterThan
  rw [semverCompare_self]
  decide

/-! ## Lemmas about the selection loop -/

theorem selStep_not_eligible {quorum : Int} {history : List String}
    {votes : List (String × List String)} {a : CandidateAction}
    (he : eligibleB quorum history votes a = false) (acc : Option CandidateAction) :
    selStep quorum history votes acc a = acc := by
  unfold eligibleB at he
  unfold selStep
  rcases Bool.and_eq_false_iff.mp he with hh | hc
  · rw [if_pos (by simpa using hh)]
  · by_cases hhist : historyHas history a.key = true
    · rw [if_pos hhist]
    · rw [if_neg hhist, if_pos (by simpa using hc)]

theorem selStep_eligible_none {quorum : Int} {history : List String}
    {votes : List (String × List String)} {a : CandidateAction}
    (he : eligibleB quorum history votes a = true) :
    selStep quorum history votes none a = some a := by
  unfold eligibleB at he
  rcases Bool.and_eq_true_iff.mp he with ⟨hh, hc⟩
  unfold selStep
  rw [if_neg (by simpa using hh), if_neg (by simpa using hc)]

theorem selStep_eligible_some {quorum : Int} {history : List String}
    {votes : List (String × List String)} {a l : CandidateAction}
    (he : eligibleB quorum history votes a = true) :
    selStep quorum history votes (some l) a =
      if semverGreaterThan a.version l.version then some a else some l := by
  unfold eligibleB at he
  rcases Bool.and_eq_true_iff.mp he with ⟨hh, hc⟩
  unfold selStep
  rw [if_neg (by simpa using hh), if_neg (by simpa using hc)]

theorem foldl_selStep_keep {quorum : Int} {history : List String}
    {votes : List (String × List String)} {c : CandidateAction} :
    ∀ l : List CandidateAction,
      (∀ a ∈ l, eligibleB quorum history votes a = true →
        semverGreaterThan a.version c.version = false) →
      List.foldl (selStep quorum history votes) (some c) l = some c
  | [], _ => rfl
  | a :: t, hng => by
    have ht : ∀ x ∈ t, eligibleB quorum history votes x = true →
        semverGreaterThan x.version c.version = false :=
      fun x hx => hng x (List.mem_cons_of_mem _ hx)
    simp only [List.foldl_cons]
    cases he : eligibleB quorum history votes a with
    | false =>
      rw [selStep_not_eligible he]
      exact foldl_selStep_keep t ht
    | true =>
      rw [selStep_eligible_some he, hng a (List.mem_cons_self _ _) he]
      simp only [Bool.false_eq_true, if_false]
      exact foldl_selStep_keep t ht

theorem foldl_selStep_reach {quorum : Int} {history : List String}
    {votes : List (String × List String)} {c : CandidateAction} :
    ∀ (l : List CandidateAction) (acc : Option CandidateAction),
      c ∈ l →
      eligibleB quorum history votes c = true →
      (∀ a ∈ l, eligibleB quorum history votes a = true → a ≠ c →
        semverGreaterThan c.version a.version = true) →
      (acc = none ∨ ∃ b, acc = some b ∧
        (b = c ∨ semverGreaterThan c.version b.version = true)) →
      List.foldl (selStep quorum history votes) acc l = some c
  | [], _, hc, _, _, _ => absurd hc (List.not_mem_nil c)
  | a :: t, acc, hc, he, hgt, hacc => by
    have hgt2 : ∀ x ∈ t, eligibleB quorum history votes x = true → x ≠ c →
        semverGreaterThan c.version x.version = true :=
      fun x hx => hgt x (List.mem_cons_of_mem _ hx)
    simp only [List.foldl_cons]
    by_cases ha : a = c
    · subst ha
      have hstep : selStep quorum history votes acc a = some a := by
        rcases hacc with hn | ⟨b, hb, hbc⟩
        · rw [hn, selStep_eligible_none he]
        · rw [hb, selStep_eligible_some he]
          rcases hbc with hbc | hbc
          · subst hbc
            rw [semverGreaterThan_irrefl]
            simp
          · rw [hbc]
            simp
      rw [hstep]
      refine foldl_selStep_keep t ?_
      intro x hx hex
      by_cases hxc : x = a
      · subst hxc
        exact semverGreaterThan_irrefl _
      · exact semverGreaterThan_asymm (hgt x (List.mem_cons_of_mem _ hx) hex hxc)
    · have hct : c ∈ t := by
        rcases List.mem_cons.mp hc with hh | hh
        · exact absurd hh.symm ha
        · exact hh
      refine foldl_selStep_reach t _ hct he hgt2 ?_
      cases hea : eligibleB quorum history votes a with
      | false =>
        rw [selStep_not_eligible hea]
        exact hacc
      | true =>
        have hca : semverGreaterThan c.version a.version = true :=
          hgt a (List.mem_cons_self _ _) hea ha
        rcases hacc with hn | ⟨b, hb, hbc⟩
        · rw [hn, selStep_eligible_none hea]
          exact Or.inr ⟨a, rfl, Or.inr hca⟩
        · rw [hb, selStep_eligible_some hea]
          by_cases hg : semverGreaterThan a.version b.version = true
          · rw [hg]
            exact Or.inr ⟨a, by simp, Or.inr hca⟩
          · rw [Bool.not_eq_true] at hg
            rw [hg]
            exact Or.inr ⟨b, by simp, hbc⟩


/-- Shared helper: a candidate that survives both skip tests and carries
a strictly greater version than every other surviving candidate is the
one the selection loop returns, whatever the iteration order. -/
theorem selectAction_eq_of_strict_greatest {quorum : Int} {history : List String}
    {votes : List (String × List String)} {order : List CandidateAction}
    {c : CandidateAction}
    (hc : c ∈ order) (he : eligibleB quorum history votes c = true)
    (hgt : ∀ a ∈ order, eligibleB quorum history votes a = true → a ≠ c →
      semverGreaterThan c.version a.version = true) :
    selectAction quorum history votes order = some c :=
  foldl_selStep_reach order none hc he hgt (Or.inl rfl)

/-- Shared helper: whatever the selection loop returns was never skipped
by the History test, so its key is not in History. -/
theorem selectAction_skips_history {quorum : Int} {history : List String}
    {votes : List (String × List String)} :
    ∀ (l : List CandidateAction) (acc : Option CandidateAction),
      (∀ b, acc = some b → historyHas history b.key = false) →
      ∀ b, List.foldl (selStep quorum history votes) acc l = some b →
        historyHas history b.key = false
  | [], acc, hacc, b, hfold => hacc b hfold
  | a :: t, acc, hacc, b, hfold => by
    simp only [List.foldl_cons] at hfold
    refine selectAction_skips_history t _ ?_ b hfold
    intro b' hb'
    cases hel : eligibleB quorum history votes a with
    | false =>
      rw [selStep_not_eligible hel] at hb'
      exact hacc b' hb'
    | true =>
      have hfa : historyHas history a.key = false := by
        unfold eligibleB at hel
        rcases Bool.and_eq_true_iff.mp hel with ⟨hh1, _⟩
        simpa using hh1
      cases hachd : acc with
      | none =>
        rw [hachd, selStep_eligible_none hel] at hb'
        simp only [Option.some.injEq] at hb'
        subst hb'
        exact hfa
      | some l0 =>
        rw [hachd, selStep_eligible_some hel] at hb'
        by_cases hg : semverGreaterThan a.version l0.version = true
        · rw [hg] at hb'
          simp at hb'
          subst hb'
          exact hfa
        · rw [Bool.not_eq_true] at hg
          rw [hg] at hb'
          simp at hb'
          subst hb'
          exact hacc l0 hachd

/-! ## Lemmas about the ingestion-loop state updates -/

theorem clearOldVote_actions (st : DaemonState) (pk : String) :
    (clearOldVote st pk).actions = st.actions := by
  unfold clearOldVote
  cases hm : alookup st.signalActionMap pk with
  | none => rfl
  | some oldKey =>
    cases hv : alookup st.votes oldKey with
    | none => simp [hv]
    | some l => simp [hv]

theorem clearOldVote_latestSignal (st : DaemonState) (pk : String) :
    (clearOldVote st pk).latestSignal = st.latestSignal := by
  unfold clearOldVote
  cases hm : alookup st.signalActionMap pk with
  | none => rfl
  | some oldKey =>
    cases hv : alookup st.votes oldKey with
    | none => simp [hv]
    | some l => simp [hv]

theorem clearOldVote_signalActionMap (st : DaemonState) (pk : String) :
    (clearOldVote st pk).signalActionMap = st.signalActionMap := by
  unfold clearOldVote
  cases hm : alookup st.signalActionMap pk with
  | none => rfl
  | some oldKey =>
    cases hv : alookup st.votes oldKey with
    | none => simp [hv]
    | some l => simp [hv]

theorem clearOldVote_not_mem_old {st : DaemonState} {pk oldKey : String}
    (hmap : alookup st.signalActionMap pk = some oldKey) :
    pk ∉ voteSet (clearOldVote st pk) oldKey := by
  unfold clearOldVote
  rw [hmap]
  cases hv : alookup st.votes oldKey with
  | none =>
    simp only [hv]
    unfold voteSet
    rw [hv]
    simp
  | some l =>
    simp only [hv]
    unfold voteSet
    simp only [alookup_aset_self]
    simp

theorem clearOldVote_subset (st : DaemonState) (pk : String) (k : String) (q : String)
    (h : q ∈ voteSet (clearOldVote st pk) k) : q ∈ voteSet st k := by
  unfold clearOldVote at h
  cases hm : alookup st.signalActionMap pk with
  | none =>
    rw [hm] at h
    exact h
  | some oldKey =>
    rw [hm] at h
    simp only [] at h
    cases hv : alookup st.votes oldKey with
    | none =>
      simp only [hv] at h
      exact h
    | some l =>
      simp only [hv] at h
      unfold voteSet at h ⊢
      by_cases hk : k = oldKey
      · subst hk
        simp only [alookup_aset_self] at h
        rw [hv]
        exact (List.mem_filter.mp h).1
      · simp only [alookup_aset_ne _ _ _ _ hk] at h
        exact h

theorem recordAccepted_latest_self (st : DaemonState) (pk : String) (t : Int)
    (key : String) (cand : CandidateAction) :
    alookup (recordAccepted st pk t key cand).latestSignal pk = some t := by
  unfold recordAccepted
  exact alookup_aset_self _ _ _

theorem recordAccepted_map_self (st : DaemonState) (pk : String) (t : Int)
    (key : String) (cand : CandidateAction) :
    alookup (recordAccepted st pk t key cand).signalActionMap pk = some key := by
  unfold recordAccepted
  exact alookup_aset_self _ _ _

theorem recordAccepted_mem_voteSet (st : DaemonState) (pk : String) (t : Int)
    (key : String) (cand : CandidateAction) :
    pk ∈ voteSet (recordAccepted st pk t key cand) key := by
  unfold recordAccepted voteSet
  simp only [alookup_aset_self]
  unfold addPk
  split_ifs with hmem
  · exact hmem
  · exact List.mem_cons_self _ _

theorem recordAccepted_voteSet_ne (st : DaemonState) (pk : String) (t : Int)
    (key k' : String) (cand : CandidateAction) (hk : k' ≠ key) :
    voteSet (recordAccepted st pk t key cand) k' = voteSet st k' := by
  unfold recordAccepted voteSet
  simp only [alookup_aset_ne _ _ _ _ hk]

theorem mem_addPk {l : List String} {pk q : String} :
    q ∈ addPk l pk ↔ q = pk ∨ q ∈ l := by
  unfold addPk
  split_ifs with hm
  · constructor
    · exact fun h => Or.inr h
    · rintro (rfl | h)
      · exact hm
      · exact h
  · simp [List.mem_cons]

theorem addPk_nodup {l : List String} {pk : String} (h : l.Nodup) :
    (addPk l pk).Nodup := by
  unfold addPk
  split_ifs with hm
  · exact h
  · exact List.nodup_cons.mpr ⟨hm, h⟩

theorem recordAccepted_voteSet_self (st : DaemonState) (pk : String) (t : Int)
    (key : String) (cand : CandidateAction) :
    voteSet (recordAccepted st pk t key cand) key = addPk (voteSet st key) pk := by
  unfold recordAccepted voteSet
  simp only [alookup_aset_self]

theorem voteSet_clearOldVote_shape (st : DaemonState) (pk : String) (k : String) :
    voteSet (clearOldVote st pk) k = voteSet st k ∨
      voteSet (clearOldVote st pk) k = (voteSet st k).filter (fun q => q ≠ pk) := by
  unfold clearOldVote
  cases hm : alookup st.signalActionMap pk with
  | none => exact Or.inl rfl
  | some oldKey =>
    cases hv : alookup st.votes oldKey with
    | none => simp [hv]
    | some l =>
      simp only [hv]
      by_cases hk : k = oldKey
      · subst hk
        refine Or.inr ?_
        unfold voteSet
        simp only [alookup_aset_self, hv]
      · refine Or.inl ?_
        unfold voteSet
        simp only [alookup_aset_ne _ _ _ _ hk]

/-- The ledger invariant behind the spec's testable properties: every
voting pubkey's entry in the latest-signal maps points at the key it is
voting for, vote sets hold no duplicates, the latest-signal maps are
well-formed, and both per-signer maps are populated together. -/
def LedgerInv (st : DaemonState) : Prop :=
  (∀ p k, p ∈ voteSet st k → alookup st.signalActionMap p = some k)
  ∧ (∀ k, (voteSet st k).Nodup)
  ∧ (st.signalActionMap.map Prod.fst).Nodup
  ∧ (∀ p, (alookup st.latestSignal p).isSome ↔ (alookup st.signalActionMap p).isSome)

theorem ledgerInv_init : LedgerInv initState := by
  refine ⟨?_, ?_, ?_, ?_⟩
  · intro p k h
    simp [initState, voteSet, alookup] at h
  · intro k
    simp [initState, voteSet, alookup]
  · simp [initState]
  · intro p
    simp [initState, alookup]

theorem ledgerInv_clearOldVote {st : DaemonState} (pk : String)
    (h : LedgerInv st) : LedgerInv (clearOldVote st pk) := by
  obtain ⟨h1, h2, h3, h4⟩ := h
  refine ⟨?_, ?_, ?_, ?_⟩
  · intro p k hp
    rw [clearOldVote_signalActionMap]
    exact h1 p k (clearOldVote_subset st pk k p hp)
  · intro k
    rcases voteSet_clearOldVote_shape st pk k with hs | hs
    · rw [hs]
      exact h2 k
    · rw [hs]
      exact (h2 k).filter _
  · rw [clearOldVote_signalActionMap]
    exact h3
  · intro p
    rw [clearOldVote_signalActionMap, clearOldVote_latestSignal]
    exact h4 p

theorem ledgerInv_recordAccepted {st : DaemonState} {pk : String} (t : Int)
    (key : String) (cand : CandidateAction)
    (h : LedgerInv st) (hnot : ∀ k, pk ∉ voteSet st k) :
    LedgerInv (recordAccepted st pk t key cand) := by
  obtain ⟨h1, h2, h3, h4⟩ := h
  refine ⟨?_, ?_, ?_, ?_⟩
  · intro p k hp
    by_cases hk : k = key
    · subst hk
      rw [recordAccepted_voteSet_self] at hp
      rcases mem_addPk.mp hp with rfl | hq
      · exact recordAccepted_map_self st p t k cand
      · have hmap := h1 p k hq
        unfold recordAccepted
        by_cases hppk : p = pk
        · exact absurd (hppk ▸ hq) (hnot k)
        · rw [alookup_aset_ne _ _ _ _ hppk]
          exact hmap
    · rw [recordAccepted_voteSet_ne st pk t key k cand hk] at hp
      have hmap := h1 p k hp
      unfold recordAccepted
      by_cases hppk : p = pk
      · exact absurd (hppk ▸ hp) (hnot k)
      · rw [alookup_aset_ne _ _ _ _ hppk]
        exact hmap
  · intro k
    by_cases hk : k = key
    · subst hk
      rw [recordAccepted_voteSet_self]
      exact addPk_nodup (h2 k)
    · rw [recordAccepted_voteSet_ne st pk t key k cand hk]
      exact h2 k
  · unfold recordAccepted
    exact aset_keys_nodup _ _ _ h3
  · intro p
    unfold recordAccepted
    by_cases hppk : p = pk
    · subst hppk
      simp [alookup_aset_self]
    · rw [alookup_aset_ne _ _ _ _ hppk, alookup_aset_ne _ _ _ _ hppk]
      exact h4 p

/-- Once the gate lets a signal through, the signer votes in no set of the
intermediate state: either the signer was never recorded (both maps
empty for it), or the supersession block just deleted its old vote. -/
theorem gate_not_mem {st st1 : DaemonState} {pk : String} {t : Int}
    (h : LedgerInv st) (hg : staleGateAndClear st pk t = some st1) :
    LedgerInv st1 ∧ ∀ k, pk ∉ voteSet st1 k := by
  obtain ⟨h1, h2, h3, h4⟩ := h
  unfold staleGateAndClear at hg
  cases hl : alookup st.latestSignal pk with
  | none =>
    rw [hl] at hg
    simp only [Option.some.injEq] at hg
    subst hg
    refine ⟨⟨h1, h2, h3, h4⟩, ?_⟩
    intro k hk
    have hm := h1 pk k hk
    have : (alookup st.signalActionMap pk).isSome := by simp [hm]
    rw [← h4 pk] at this
    rw [hl] at this
    exact absurd this (by simp)
  | some prev =>
    rw [hl] at hg
    simp only [] at hg
    by_cases hlt : prev < t
    · rw [if_pos hlt] at hg
      simp only [Option.some.injEq] at hg
      subst hg
      refine ⟨ledgerInv_clearOldVote pk ⟨h1, h2, h3, h4⟩, ?_⟩
      intro k hk
      have hmem : (alookup st.signalActionMap pk).isSome := by
        rw [← h4 pk, hl]
        simp
      cases hm : alookup st.signalActionMap pk with
      | none => rw [hm] at hmem ; exact absurd hmem (by simp)
      | some oldKey =>
        have hk' : alookup (clearOldVote st pk).signalActionMap pk = some k :=
          (ledgerInv_clearOldVote pk ⟨h1, h2, h3, h4⟩).1 pk k hk
        rw [clearOldVote_signalActionMap, hm] at hk'
        simp only [Option.some.injEq] at hk'
        subst hk'
        exact absurd hk (clearOldVote_not_mem_old hm)
    · rw [if_neg hlt] at hg
      exact absurd hg (by simp)

/-- Invariant preservation for an arbitrary incoming event. -/
theorem ledgerInv_processEvent (cfg : Config) {st : DaemonState} (ev : NEvent)
    (h : LedgerInv st) : LedgerInv (processEvent cfg st ev) := by
  unfold processEvent
  cases classifySignal cfg ev with
  | rejectedEarly => exact h
  | rejectedLate =>
    cases hg : staleGateAndClear st ev.pubKey ev.createdAt with
    | none => exact h
    | some st1 => exact (gate_not_mem h hg).1
  | accepted cand =>
    cases hg : staleGateAndClear st ev.pubKey ev.createdAt with
    | none => exact h
    | some st1 =>
      obtain ⟨hinv1, hnot⟩ := gate_not_mem h hg
      exact ledgerInv_recordAccepted ev.createdAt cand.key cand hinv1 hnot

/-- The invariant holds in every state reachable from startup. -/
theorem ledgerInv_foldState (cfg : Config) (evs : List NEvent) :
    LedgerInv (foldState cfg evs) := by
  unfold foldState
  suffices hgen : ∀ (l : List NEvent) (st : DaemonState), LedgerInv st →
      LedgerInv (List.foldl (processEvent cfg) st l) by
    exact hgen evs initState ledgerInv_init
  intro l
  induction l with
  | nil => exact fun st h => h
  | cons e t ih =>
    intro st h
    simp only [List.foldl_cons]
    exact ih _ (ledgerInv_processEvent cfg e h)

/-- The pubkeys whose current latest signal is for the given key. -/
def currentSigners (st : DaemonState) (k : String) : List String :=
  (st.signalActionMap.filter (fun e => e.2 == k)).map Prod.fst

theorem nodup_subset_length {l1 l2 : List String} (h1 : l1.Nodup) (hsub : l1 ⊆ l2) :
    l1.length ≤ l2.length := by
  calc l1.length = l1.toFinset.card := (List.toFinset_card_of_nodup h1).symm
    _ ≤ l2.toFinset.card := Finset.card_le_card (fun x hx => by
        rw [List.mem_toFinset] at hx ⊢
        exact hsub hx)
    _ ≤ l2.length := List.toFinset_card_le l2

theorem voteSet_subset_currentSigners {st : DaemonState} (hinv : LedgerInv st)
    (k : String) : voteSet st k ⊆ currentSigners st k := by
  intro p hp
  have hm := hinv.1 p k hp
  have hmem := alookup_mem hm
  unfold currentSigners
  refine List.mem_map.mpr ⟨(p, k), ?_, rfl⟩
  refine List.mem_filter.mpr ⟨hmem, ?_⟩
  simp

theorem staleGate_none {st : DaemonState} {pk : String} {t : Int}
    (hl : alookup st.latestSignal pk = none) :
    staleGateAndClear st pk t = some st := by
  unfold staleGateAndClear
  rw [hl]

theorem staleGate_newer {st : DaemonState} {pk : String} {t t0 : Int}
    (hl : alookup st.latestSignal pk = some t0) (hlt : t0 < t) :
    staleGateAndClear st pk t = some (clearOldVote st pk) := by
  unfold staleGateAndClear
  rw [hl]
  show (if t0 < t then some (clearOldVote st pk) else none) = some (clearOldVote st pk)
  rw [if_pos hlt]

theorem staleGate_stale {st : DaemonState} {pk : String} {t t0 : Int}
    (hl : alookup st.latestSignal pk = some t0) (hlt : ¬ t0 < t) :
    staleGateAndClear st pk t = none := by
  unfold staleGateAndClear
  rw [hl]
  show (if t0 < t then some (clearOldVote st pk) else none) = none
  rw [if_neg hlt]

theorem staleGate_frame {st st1 : DaemonState} {pk : String} {t : Int}
    (hg : staleGateAndClear st pk t = some st1) :
    st1.actions = st.actions ∧ st1.latestSignal = st.latestSignal ∧
      st1.signalActionMap = st.signalActionMap := by
  cases hl : alookup st.latestSignal pk with
  | none =>
    rw [staleGate_none hl] at hg
    simp only [Option.some.injEq] at hg
    subst hg
    exact ⟨rfl, rfl, rfl⟩
  | some t0 =>
    by_cases hlt : t0 < t
    · rw [staleGate_newer hl hlt] at hg
      simp only [Option.some.injEq] at hg
      subst hg
      exact ⟨clearOldVote_actions st pk, clearOldVote_latestSignal st pk,
        clearOldVote_signalActionMap st pk⟩
    · rw [staleGate_stale hl hlt] at hg
      exact absurd hg (by simp)

theorem recordAccepted_actions_lookup {st : DaemonState} {key : String}
    {cand : CandidateAction} (pk : String) (t : Int) (k0 : String) (c0 : CandidateAction)
    (h : alookup st.actions key = some cand) :
    alookup (recordAccepted st pk t k0 c0).actions key = some cand := by
  unfold recordAccepted
  cases hl : alookup st.actions k0 with
  | some c =>
    simp only [hl]
    exact h
  | none =>
    simp only [hl]
    have hk : key ≠ k0 := by
      intro he
      rw [he, hl] at h
      exact Option.noConfusion h
    rw [alookup_aset_ne _ _ _ _ hk]
    exact h

theorem voteCount_eq_length (st : DaemonState) (k : String) :
    voteCount st.votes k = (voteSet st k).length := by
  unfold voteCount voteSet
  cases alookup st.votes k <;> simp

theorem historyHas_add_self (h : List String) (key : String) :
    historyHas (historyAdd h key) key = true := by
  unfold historyHas historyAdd
  simp

/-! ## Concrete scenario material

Events and states used to instantiate the theorems below on the spec's
scenarios (network `hqz`, quorum threshold 3, as in the shipped default
configuration). -/

/-- The shipped default configuration scope and threshold. -/
def sampleConfig : Config := { network := "hqz", quorum := 3 }

/-- A well-formed upgrade HyperSignal event. -/
def upgradeEvent (pk : String) (t : Int) (ver : String) : NEvent :=
  { pubKey := pk, createdAt := t,
    tags := [["d", "hyperqube"], ["version", ver], ["hash", "deadbeef"],
             ["network", "hqz"], ["action", "upgrade"]] }

/-- Scenario B: two signers endorse v1.0.0, three endorse v2.0.0. -/
def scenarioBState : DaemonState :=
  foldState sampleConfig
    [upgradeEvent "s1" 10 "v1.0.0", upgradeEvent "s2" 11 "v1.0.0",
     upgradeEvent "s3" 12 "v2.0.0", upgradeEvent "s4" 13 "v2.0.0",
     upgradeEvent "s5" 14 "v2.0.0"]

/-- An iteration order over scenario B's registry. -/
def scenarioBOrder : List CandidateAction := scenarioBState.actions.map Prod.snd

/-- The v2.0.0 upgrade candidate as built from S3's signal. -/
def upgradeV2Cand : CandidateAction :=
  { version := { major := 2, minor := 0, patch := 0, pre := "", metadata := "",
                 original := "v2.0.0" },
    type := "upgrade", key := "upgrade:v2.0.0", genesis := "", hash := "deadbeef",
    network := "hqz", originalPubkey := "s3" }

/-- Scenario A: three signers endorse v1.0.0. -/
def scenarioAState : DaemonState :=
  foldState sampleConfig
    [upgradeEvent "s1" 10 "v1.0.0", upgradeEvent "s2" 11 "v1.0.0",
     upgradeEvent "s3" 12 "v1.0.0"]

/-- An iteration order over scenario A's registry. -/
def scenarioAOrder : List CandidateAction := scenarioAState.actions.map Prod.snd

/-- A state holding a single recorded upgrade vote from S1. -/
def oneVoteState : DaemonState :=
  foldState sampleConfig [upgradeEvent "s1" 100 "v1.0.0"]

/-- A reboot signal from S1 with a strictly newer timestamp whose
`genesis_url` tag is absent: it fails validation in the reboot branch. -/
def badRebootEvent : NEvent :=
  { pubKey := "s1", createdAt := 200,
    tags := [["d", "hyperqube"], ["version", "v2.0.0"], ["hash", "deadbeef"],
             ["network", "hqz"], ["action", "reboot"]] }

/-! ## The claims -/

/-- Claim C1: in every evaluator invocation, among the candidate actions
whose key is not in History and whose vote-set size is at least the
configured quorum, the candidate with the strictly greatest semantic
version is selected, whatever iteration order the registry map yields. -/
theorem claim_C1_selects_strictly_greatest
    (quorum : Int) (history : List String) (votes : List (String × List String))
    (order : List CandidateAction) (c : CandidateAction)
    (hc : c ∈ order) (he : eligibleB quorum history votes c = true)
    (hgt : ∀ a ∈ order, eligibleB quorum history votes a = true → a ≠ c →
      semverGreaterThan c.version a.version = true) :
    selectAction quorum history votes order = some c :=
  selectAction_eq_of_strict_greatest hc he hgt

/-- Claim C1 witness, scenario B: with threshold 3, S1 and S2 voting
v1.0.0 and S3, S4, S5 voting v2.0.0, the evaluator selects v2.0.0 even
though v1.0.0 never reaches quorum. -/
theorem claim_C1_witness :
    (upgradeV2Cand ∈ scenarioBOrder
      ∧ eligibleB 3 [] scenarioBState.votes upgradeV2Cand = true
      ∧ (∀ a ∈ scenarioBOrder, eligibleB 3 [] scenarioBState.votes a = true →
          a ≠ upgradeV2Cand →
          semverGreaterThan upgradeV2Cand.version a.version = true))
    ∧ selectAction 3 [] scenarioBState.votes scenarioBOrder = some upgradeV2Cand :=
  ⟨⟨by decide, by decide, by decide⟩,
    claim_C1_selects_strictly_greatest 3 [] scenarioBState.votes scenarioBOrder
      upgradeV2Cand (by decide) (by decide) (by decide)⟩

/-- Claim C2: if a signer's accepted signal for key A at time t1 is
followed by the same signer's accepted signal for a different key B at
time t2 > t1, afterwards the signer is absent from A's vote set and
present in B's vote set. -/
theorem claim_C2_supersession
    (cfg : Config) (s0 : DaemonState) (ev1 ev2 : NEvent) (c1 c2 : CandidateAction)
    (h1 : classifySignal cfg ev1 = .accepted c1)
    (h2 : classifySignal cfg ev2 = .accepted c2)
    (hpk : ev2.pubKey = ev1.pubKey)
    (hkey : c2.key ≠ c1.key)
    (ht : ev1.createdAt < ev2.createdAt)
    (hstale : staleGateAndClear s0 ev1.pubKey ev1.createdAt ≠ none) :
    ev1.pubKey ∉ voteSet (processEvent cfg (processEvent cfg s0 ev1) ev2) c1.key
    ∧ ev1.pubKey ∈ voteSet (processEvent cfg (processEvent cfg s0 ev1) ev2) c2.key := by
  cases hg : staleGateAndClear s0 ev1.pubKey ev1.createdAt with
  | none => exact absurd hg hstale
  | some st1 =>
    have hs1 : processEvent cfg s0 ev1 =
        recordAccepted st1 ev1.pubKey ev1.createdAt c1.key c1 := by
      unfold processEvent
      rw [h1]
      simp only [hg]
    set s1 := processEvent cfg s0 ev1 with hs1def
    have hlat : alookup s1.latestSignal ev1.pubKey = some ev1.createdAt := by
      rw [hs1]
      exact recordAccepted_latest_self _ _ _ _ _
    have hmap : alookup s1.signalActionMap ev1.pubKey = some c1.key := by
      rw [hs1]
      exact recordAccepted_map_self _ _ _ _ _
    have hgate2 : staleGateAndClear s1 ev2.pubKey ev2.createdAt =
        some (clearOldVote s1 ev2.pubKey) := by
      rw [hpk]
      exact staleGate_newer hlat ht
    have hs2 : processEvent cfg s1 ev2 =
        recordAccepted (clearOldVote s1 ev2.pubKey) ev2.pubKey ev2.createdAt c2.key c2 := by
      unfold processEvent
      rw [h2]
      simp only [hgate2]
    rw [hs2]
    constructor
    · rw [recordAccepted_voteSet_ne _ _ _ _ _ _ (fun hh => hkey hh.symm)]
      rw [hpk]
      exact clearOldVote_not_mem_old hmap
    · rw [← hpk]
      exact recordAccepted_mem_voteSet _ _ _ _ _

/-- Claim C2 witness: S1 votes upgrade v1.0.0 at t=10 and upgrade v2.0.0
at t=20 from the empty state; afterwards S1 no longer votes for
`upgrade:v1.0.0` and votes for `upgrade:v2.0.0`. -/
theorem claim_C2_witness :
    (classifySignal sampleConfig (upgradeEvent "s1" 10 "v1.0.0") =
        .accepted { version := { major := 1, minor := 0, patch := 0, pre := "",
                                 metadata := "", original := "v1.0.0" },
                    type := "upgrade", key := "upgrade:v1.0.0", genesis := "",
                    hash := "deadbeef", network := "hqz", originalPubkey := "s1" }
      ∧ staleGateAndClear initState "s1" 10 ≠ none)
    ∧ "s1" ∉ voteSet (processEvent sampleConfig
        (processEvent sampleConfig initState (upgradeEvent "s1" 10 "v1.0.0"))
        (upgradeEvent "s1" 20 "v2.0.0")) "upgrade:v1.0.0"
    ∧ "s1" ∈ voteSet (processEvent sampleConfig
        (processEvent sampleConfig initState (upgradeEvent "s1" 10 "v1.0.0"))
        (upgradeEvent "s1" 20 "v2.0.0")) "upgrade:v2.0.0" := by
  refine ⟨⟨by decide, by decide⟩, ?_⟩
  have := claim_C2_supersession sampleConfig initState
    (upgradeEvent "s1" 10 "v1.0.0") (upgradeEvent "s1" 20 "v2.0.0")
    { version := { major := 1, minor := 0, patch := 0, pre := "", metadata := "",
                   original := "v1.0.0" },
      type := "upgrade", key := "upgrade:v1.0.0", genesis := "", hash := "deadbeef",
      network := "hqz", originalPubkey := "s1" }
    { version := { major := 2, minor := 0, patch := 0, pre := "", metadata := "",
                   original := "v2.0.0" },
      type := "upgrade", key := "upgrade:v2.0.0", genesis := "", hash := "deadbeef",
      network := "hqz", originalPubkey := "s1" }
    (by decide) (by decide) (by decide) (by decide) (by decide) (by decide)
  exact this

/-- Claim C3: a further signal from a signer whose recorded latest
timestamp is t2, delivered with timestamp t1 ≤ t2 (equal timestamps and
duplicate keys included), leaves the entire state unchanged. -/
theorem claim_C3_staleness (cfg : Config) (st : DaemonState) (ev : NEvent) (t2 : Int)
    (hl : alookup st.latestSignal ev.pubKey = some t2)
    (ht : ev.createdAt ≤ t2) :
    processEvent cfg st ev = st := by
  have hg : staleGateAndClear st ev.pubKey ev.createdAt = none :=
    staleGate_stale hl (Int.not_lt.mpr ht)
  unfold processEvent
  cases classifySignal cfg ev with
  | rejectedEarly => rfl
  | rejectedLate => rw [hg]
  | accepted cand => rw [hg]

/-- Claim C3 witness, scenario D: S1 votes upgrade v1.0.0 at t=100, then
the same vote is re-delivered at t=50; the second signal is ignored and
the vote count stays at 1. -/
theorem claim_C3_witness :
    (alookup oneVoteState.latestSignal "s1" = some 100
      ∧ (50 : Int) ≤ 100
      ∧ voteCount oneVoteState.votes "upgrade:v1.0.0" = 1)
    ∧ processEvent sampleConfig oneVoteState (upgradeEvent "s1" 50 "v1.0.0") =
        oneVoteState :=
  ⟨⟨by decide, by decide, by decide⟩,
    claim_C3_staleness sampleConfig oneVoteState (upgradeEvent "s1" 50 "v1.0.0") 100
      (by decide) (by decide)⟩

/-- Claim C4 (code bug): a reboot event that fails validation (missing
`genesis_url`) from a signer with a strictly newer timestamp does NOT
leave the ledger unchanged: the daemon deletes the signer's previous vote
before it validates the reboot-specific fields, so the failing event
drops the vote count for `upgrade:v1.0.0` from 1 to 0. -/
theorem claim_C4_failing_input_mutates :
    classifySignal sampleConfig badRebootEvent = .rejectedLate
    ∧ voteCount oneVoteState.votes "upgrade:v1.0.0" = 1
    ∧ voteCount (processEvent sampleConfig oneVoteState badRebootEvent).votes
        "upgrade:v1.0.0" = 0
    ∧ processEvent sampleConfig oneVoteState badRebootEvent ≠ oneVoteState := by
  refine ⟨by decide, by decide, by decide, by decide⟩

/-- Claim C5: once an action key is in History, no evaluator invocation
selects it, regardless of accumulated votes. -/
theorem claim_C5_history_idempotence
    (quorum : Int) (history : List String) (votes : List (String × List String))
    (order : List CandidateAction) (K : String) (c : CandidateAction)
    (hK : historyHas history K = true)
    (hsel : selectAction quorum history votes order = some c) :
    c.key ≠ K := by
  intro he
  have hfalse := selectAction_skips_history order none
    (fun b hb => Option.noConfusion hb) c hsel
  rw [he, hK] at hfalse
  exact absurd hfalse (by decide)

/-- Claim C5 witness: with `upgrade:v1.0.0` already in History and both
v1.0.0 and v0.9.0 holding three votes, the evaluator's pick is not the
historical key. -/
theorem claim_C5_witness :
    (historyHas ["upgrade:v1.0.0"] "upgrade:v1.0.0" = true
      ∧ selectAction 3 ["upgrade:v1.0.0"]
          [("upgrade:v1.0.0", ["s1", "s2", "s3"]), ("upgrade:v0.9.0", ["s1", "s2", "s3"])]
          [{ version := { major := 1, minor := 0, patch := 0, pre := "", metadata := "",
                          original := "v1.0.0" },
             type := "upgrade", key := "upgrade:v1.0.0", genesis := "",
             hash := "deadbeef", network := "hqz", originalPubkey := "s1" },
           { version := { major := 0, minor := 9, patch := 0, pre := "", metadata := "",
                          original := "v0.9.0" },
             type := "upgrade", key := "upgrade:v0.9.0", genesis := "",
             hash := "deadbeef", network := "hqz", originalPubkey := "s1" }] =
          some { version := { major := 0, minor := 9, patch := 0, pre := "",
                              metadata := "", original := "v0.9.0" },
                 type := "upgrade", key := "upgrade:v0.9.0", genesis := "",
                 hash := "deadbeef", network := "hqz", originalPubkey := "s1" })
    ∧ ("upgrade:v0.9.0" : String) ≠ "upgrade:v1.0.0" := by
  refine ⟨⟨by decide, by decide⟩, ?_⟩
  exact claim_C5_history_idempotence 3 ["upgrade:v1.0.0"]
    [("upgrade:v1.0.0", ["s1", "s2", "s3"]), ("upgrade:v0.9.0", ["s1", "s2", "s3"])]
    [{ version := { major := 1, minor := 0, patch := 0, pre := "", metadata := "",
                    original := "v1.0.0" },
       type := "upgrade", key := "upgrade:v1.0.0", genesis := "",
       hash := "deadbeef", network := "hqz", originalPubkey := "s1" },
     { version := { major := 0, minor := 9, patch := 0, pre := "", metadata := "",
                    original := "v0.9.0" },
       type := "upgrade", key := "upgrade:v0.9.0", genesis := "",
       hash := "deadbeef", network := "hqz", originalPubkey := "s1" }]
    "upgrade:v1.0.0"
    { version := { major := 0, minor := 9, patch := 0, pre := "", metadata := "",
                   original := "v0.9.0" },
      type := "upgrade", key := "upgrade:v0.9.0", genesis := "",
      hash := "deadbeef", network := "hqz", originalPubkey := "s1" }
    (by decide) (by decide)

/-- Claim C6: after any event stream from startup, a signer in a key's
vote set votes for no other key, and every key's vote count is bounded by
the number of distinct signers whose current latest signal is that key. -/
theorem claim_C6_ledger_invariant (cfg : Config) (evs : List NEvent) (k : String) :
    (∀ p, p ∈ voteSet (foldState cfg evs) k →
      ∀ k2, p ∈ voteSet (foldState cfg evs) k2 → k2 = k)
    ∧ voteCount (foldState cfg evs).votes k ≤
        (currentSigners (foldState cfg evs) k).length := by
  have hinv := ledgerInv_foldState cfg evs
  constructor
  · intro p hp k2 hp2
    have e1 := hinv.1 p k hp
    have e2 := hinv.1 p k2 hp2
    rw [e1] at e2
    injection e2 with e3
    exact e3.symm
  · rw [voteCount_eq_length]
    exact nodup_subset_length (hinv.2.1 k) (voteSet_subset_currentSigners hinv k)

/-- Claim C6 witness: in scenario B the bound is tight for
`upgrade:v2.0.0` (three voters, three current signers) and S3 votes for
no other key. -/
theorem claim_C6_witness :
    ((∀ p, p ∈ voteSet (foldState sampleConfig
        [upgradeEvent "s1" 10 "v1.0.0", upgradeEvent "s2" 11 "v1.0.0",
         upgradeEvent "s3" 12 "v2.0.0", upgradeEvent "s4" 13 "v2.0.0",
         upgradeEvent "s5" 14 "v2.0.0"]) "upgrade:v2.0.0" →
      ∀ k2, p ∈ voteSet (foldState sampleConfig
        [upgradeEvent "s1" 10 "v1.0.0", upgradeEvent "s2" 11 "v1.0.0",
         upgradeEvent "s3" 12 "v2.0.0", upgradeEvent "s4" 13 "v2.0.0",
         upgradeEvent "s5" 14 "v2.0.0"]) k2 → k2 = "upgrade:v2.0.0")
    ∧ voteCount (foldState sampleConfig
        [upgradeEvent "s1" 10 "v1.0.0", upgradeEvent "s2" 11 "v1.0.0",
         upgradeEvent "s3" 12 "v2.0.0", upgradeEvent "s4" 13 "v2.0.0",
         upgradeEvent "s5" 14 "v2.0.0"]).votes "upgrade:v2.0.0" ≤
        (currentSigners (foldState sampleConfig
        [upgradeEvent "s1" 10 "v1.0.0", upgradeEvent "s2" 11 "v1.0.0",
         upgradeEvent "s3" 12 "v2.0.0", upgradeEvent "s4" 13 "v2.0.0",
         upgradeEvent "s5" 14 "v2.0.0"]) "upgrade:v2.0.0").length)
    ∧ voteCount scenarioBState.votes "upgrade:v2.0.0" = 3
    ∧ (currentSigners scenarioBState "upgrade:v2.0.0").length = 3 :=
  ⟨claim_C6_ledger_invariant sampleConfig
      [upgradeEvent "s1" 10 "v1.0.0", upgradeEvent "s2" 11 "v1.0.0",
       upgradeEvent "s3" 12 "v2.0.0", upgradeEvent "s4" 13 "v2.0.0",
       upgradeEvent "s5" 14 "v2.0.0"] "upgrade:v2.0.0",
    by decide, by decide⟩

/-- The v1.0.0 upgrade candidate as built from S1's signal. -/
def upgradeV1CandS1 : CandidateAction :=
  { version := { major := 1, minor := 0, patch := 0, pre := "", metadata := "",
                 original := "v1.0.0" },
    type := "upgrade", key := "upgrade:v1.0.0", genesis := "", hash := "deadbeef",
    network := "hqz", originalPubkey := "s1" }

/-- Claim C7 counterexample: in scenario A a non-dry-run evaluator cycle
commits `upgrade:v1.0.0` to History, yet the key's vote set still holds
all three votes afterwards — the code never clears it, contradicting the
claim that the executed action's key holds no votes. -/
theorem claim_C7_counterexample :
    (checkAndExecuteQuorum 3 false scenarioAState [] scenarioAOrder).2 =
        ["upgrade:v1.0.0"]
    ∧ voteCount (checkAndExecuteQuorum 3 false scenarioAState [] scenarioAOrder).1.votes
        "upgrade:v1.0.0" = 3 := by
  refine ⟨by decide, by decide⟩

/-- Claim C7 amended: a non-dry-run cycle that selects a candidate
appends its key to History and returns the ledger state unchanged — the
vote set is NOT cleared — and the key can nevertheless never be selected
again against the updated History. -/
theorem claim_C7_amended (quorum : Int) (st : DaemonState) (history : List String)
    (order : List CandidateAction) (c : CandidateAction)
    (hsel : selectAction quorum history st.votes order = some c) :
    checkAndExecuteQuorum quorum false st history order = (st, historyAdd history c.key)
    ∧ (∀ c2, selectAction quorum (historyAdd history c.key) st.votes order = some c2 →
        c2.key ≠ c.key) := by
  constructor
  · unfold checkAndExecuteQuorum
    rw [hsel]
    rfl
  · intro c2 hsel2 he
    have hfalse := selectAction_skips_history order none
      (fun b hb => Option.noConfusion hb) c2 hsel2
    rw [he, historyHas_add_self] at hfalse
    exact absurd hfalse (by decide)

/-- Claim C7 witness: the amended statement at scenario A. -/
theorem claim_C7_witness :
    (selectAction 3 [] scenarioAState.votes scenarioAOrder = some upgradeV1CandS1)
    ∧ (checkAndExecuteQuorum 3 false scenarioAState [] scenarioAOrder =
          (scenarioAState, historyAdd [] upgradeV1CandS1.key)
      ∧ (∀ c2, selectAction 3 (historyAdd [] upgradeV1CandS1.key) scenarioAState.votes
            scenarioAOrder = some c2 → c2.key ≠ upgradeV1CandS1.key)) :=
  ⟨by decide,
    claim_C7_amended 3 scenarioAState [] scenarioAOrder upgradeV1CandS1 (by decide)⟩

/-- Claim C8: a CandidateAction already present in the registry for a key
is never mutated by processing any further event (first writer wins). -/
theorem claim_C8_registry_immutable (cfg : Config) (st : DaemonState) (ev : NEvent)
    (key : String) (cand : CandidateAction)
    (h : alookup st.actions key = some cand) :
    alookup (processEvent cfg st ev).actions key = some cand := by
  unfold processEvent
  cases classifySignal cfg ev with
  | rejectedEarly => exact h
  | rejectedLate =>
    cases hg : staleGateAndClear st ev.pubKey ev.createdAt with
    | none => exact h
    | some st1 =>
      show alookup st1.actions key = some cand
      rw [(staleGate_frame hg).1]
      exact h
  | accepted cand0 =>
    cases hg : staleGateAndClear st ev.pubKey ev.createdAt with
    | none => exact h
    | some st1 =>
      show alookup (recordAccepted st1 ev.pubKey ev.createdAt cand0.key cand0).actions
          key = some cand
      refine recordAccepted_actions_lookup _ _ _ _ ?_
      rw [(staleGate_frame hg).1]
      exact h

/-- A later signal for the same key from another signer with a different
binary hash. -/
def laterDifferentHash : NEvent :=
  { pubKey := "s2", createdAt := 20,
    tags := [["d", "hyperqube"], ["version", "v1.0.0"], ["hash", "cafef00d"],
             ["network", "hqz"], ["action", "upgrade"]] }

/-- Claim C8 witness: after S1 creates `upgrade:v1.0.0` with hash
`deadbeef`, S2's later signal for the same key carrying hash `cafef00d`
leaves the registry entry (hash and origin included) unchanged. -/
theorem claim_C8_witness :
    (alookup oneVoteState.actions "upgrade:v1.0.0" = some upgradeV1CandS1
      ∧ getTagValue laterDifferentHash.tags "hash" = "cafef00d"
      ∧ upgradeV1CandS1.hash = "deadbeef"
      ∧ upgradeV1CandS1.originalPubkey = "s1")
    ∧ alookup (processEvent sampleConfig oneVoteState laterDifferentHash).actions
        "upgrade:v1.0.0" = some upgradeV1CandS1 :=
  ⟨⟨by decide, by decide, by decide, by decide⟩,
    claim_C8_registry_immutable sampleConfig oneVoteState laterDifferentHash
      "upgrade:v1.0.0" upgradeV1CandS1 (by decide)⟩

/-- A reboot candidate for v1.0.0 with genesis reference A. -/
def rebootCandA : CandidateAction :=
  { version := { major := 1, minor := 0, patch := 0, pre := "", metadata := "",
                 original := "v1.0.0" },
    type := "reboot", key := "reboot:v1.0.0:https://a.example/g.json",
    genesis := "https://a.example/g.json", hash := "deadbeef", network := "hqz",
    originalPubkey := "s1" }

/-- A reboot candidate for the same v1.0.0 with genesis reference B. -/
def rebootCandB : CandidateAction :=
  { version := { major := 1, minor := 0, patch := 0, pre := "", metadata := "",
                 original := "v1.0.0" },
    type := "reboot", key := "reboot:v1.0.0:https://b.example/g.json",
    genesis := "https://b.example/g.json", hash := "deadbeef", network := "hqz",
    originalPubkey := "s4" }

/-- A ledger in which both equal-version reboot candidates meet quorum 3. -/
def tieVotes : List (String × List String) :=
  [("reboot:v1.0.0:https://a.example/g.json", ["s1", "s2", "s3"]),
   ("reboot:v1.0.0:https://b.example/g.json", ["s4", "s5", "s6"])]

/-- Claim C9 counterexample: on the same registry contents, ledger,
History and quorum, two iteration orders of the registry map select
different equal-version reboot candidates — the selection is not a
function of the four inputs the claim names. -/
theorem claim_C9_counterexample :
    List.Perm [rebootCandA, rebootCandB] [rebootCandB, rebootCandA]
    ∧ selectAction 3 [] tieVotes [rebootCandA, rebootCandB] ≠
        selectAction 3 [] tieVotes [rebootCandB, rebootCandA] := by
  refine ⟨by decide, by decide⟩

/-- A ledger in which both distinct-version upgrade candidates meet
quorum 3. -/
def versusVotes : List (String × List String) :=
  [("upgrade:v1.0.0", ["s1", "s2", "s3"]), ("upgrade:v2.0.0", ["s4", "s5", "s6"])]

/-- Claim C9 amended: for a fixed iteration order the selection is a
function of registry order, ledger, History and quorum; across different
iteration orders of the same registry the selection agrees whenever some
eligible candidate carries a strictly greatest version — only ties on
version (equal-version reboot candidates with different genesis
references) are resolved by the randomized map iteration order and may
differ between two runs on the same state. -/
theorem claim_C9_amended (quorum : Int) (history : List String)
    (votes : List (String × List String)) (l1 l2 : List CandidateAction)
    (c : CandidateAction)
    (hperm : l1.Perm l2)
    (hc : c ∈ l1) (he : eligibleB quorum history votes c = true)
    (hgt : ∀ a ∈ l1, eligibleB quorum history votes a = true → a ≠ c →
      semverGreaterThan c.version a.version = true) :
    selectAction quorum history votes l1 = selectAction quorum history votes l2 := by
  rw [selectAction_eq_of_strict_greatest hc he hgt,
    selectAction_eq_of_strict_greatest (hperm.mem_iff.mp hc) he
      (fun a ha => hgt a (hperm.mem_iff.mpr ha))]

/-- Claim C9 witness: with distinct versions v1.0.0 and v2.0.0 both
meeting quorum, both iteration orders select the same candidate. -/
theorem claim_C9_witness :
    (List.Perm [upgradeV1CandS1, upgradeV2Cand] [upgradeV2Cand, upgradeV1CandS1]
      ∧ upgradeV2Cand ∈ [upgradeV1CandS1, upgradeV2Cand]
      ∧ eligibleB 3 [] versusVotes upgradeV2Cand = true
      ∧ (∀ a ∈ [upgradeV1CandS1, upgradeV2Cand],
          eligibleB 3 [] versusVotes a = true → a ≠ upgradeV2Cand →
          semverGreaterThan upgradeV2Cand.version a.version = true))
    ∧ selectAction 3 [] versusVotes [upgradeV1CandS1, upgradeV2Cand] =
        selectAction 3 [] versusVotes [upgradeV2Cand, upgradeV1CandS1] :=
  ⟨⟨by decide, by decide, by decide, by decide⟩,
    claim_C9_amended 3 [] versusVotes [upgradeV1CandS1, upgradeV2Cand]
      [upgradeV2Cand, upgradeV1CandS1] upgradeV2Cand
      (by decide) (by decide) (by decide) (by decide)⟩

/-- Claim C10: a reboot event from a signer with an existing latest-signal
entry, strictly newer timestamp, and a missing or invalid `genesis_url`
(so it is rejected inside the switch) leaves the latest-signal index and
the registry unchanged and adds no vote, yet removes the signer from
their previous action key's vote set. -/
theorem claim_C10_invalid_reboot_clears_old_vote
    (cfg : Config) (st : DaemonState) (ev : NEvent) (t0 : Int) (oldKey : String)
    (ha : getTagValue ev.tags "action" = "reboot")
    (hcls : classifySignal cfg ev = .rejectedLate)
    (hl : alookup st.latestSignal ev.pubKey = some t0)
    (hm : alookup st.signalActionMap ev.pubKey = some oldKey)
    (ht : t0 < ev.createdAt) :
    (processEvent cfg st ev).latestSignal = st.latestSignal
    ∧ (processEvent cfg st ev).signalActionMap = st.signalActionMap
    ∧ (processEvent cfg st ev).actions = st.actions
    ∧ ev.pubKey ∉ voteSet (processEvent cfg st ev) oldKey
    ∧ (∀ k q, q ∈ voteSet (processEvent cfg st ev) k → q ∈ voteSet st k) := by
  have hp : processEvent cfg st ev = clearOldVote st ev.pubKey := by
    unfold processEvent
    rw [hcls]
    simp only [staleGate_newer hl ht]
  rw [hp]
  exact ⟨clearOldVote_latestSignal st _, clearOldVote_signalActionMap st _,
    clearOldVote_actions st _, clearOldVote_not_mem_old hm,
    fun k q hq => clearOldVote_subset st _ k q hq⟩

/-- Claim C10 witness: after S1's upgrade vote at t=100, S1's reboot
signal at t=200 without a `genesis_url` tag deletes S1's vote for
`upgrade:v1.0.0` while the latest-signal index, the action map and the
registry stay as they were. -/
theorem claim_C10_witness :
    (getTagValue badRebootEvent.tags "action" = "reboot"
      ∧ classifySignal sampleConfig badRebootEvent = .rejectedLate
      ∧ alookup oneVoteState.latestSignal "s1" = some 100
      ∧ alookup oneVoteState.signalActionMap "s1" = some "upgrade:v1.0.0"
      ∧ (100 : Int) < 200)
    ∧ ((processEvent sampleConfig oneVoteState badRebootEvent).latestSignal =
          oneVoteState.latestSignal
      ∧ (processEvent sampleConfig oneVoteState badRebootEvent).signalActionMap =
          oneVoteState.signalActionMap
      ∧ (processEvent sampleConfig oneVoteState badRebootEvent).actions =
          oneVoteState.actions
      ∧ "s1" ∉ voteSet (processEvent sampleConfig oneVoteState badRebootEvent)
          "upgrade:v1.0.0"
      ∧ (∀ k q, q ∈ voteSet (processEvent sampleConfig oneVoteState badRebootEvent) k →
          q ∈ voteSet oneVoteState k)) :=
  ⟨⟨by decide, by decide, by decide, by decide, by decide⟩,
    claim_C10_invalid_reboot_clears_old_vote sampleConfig oneVoteState badRebootEvent
      100 "upgrade:v1.0.0" (by decide) (by decide) (by decide) (by decide) (by decide)⟩

end QubeManager
